import Mathlib

/-!
Verification development for the `dados` voice-driven automation agent.

The definitions below are a shallow embedding of the Python sources:
  * `src/task_parser.py`     — instruction decomposition (`TaskParser`)
  * `src/safety_manager.py`  — dangerous-command gate (`SafetyManager`)
  * `src/executors/shell_executor.py` — shell batch runner with confirmation gate
  * `src/command_router.py`  — routing to dictation / shell / gui
  * `src/executors/gui_executor.py`   — VLM verify-then-act click loop
  * `src/context_manager.py` — task orchestration (statuses, summary, waits)

Modelling conventions:
  * Python `str` values are Lean `String`s; the Python string primitives used by
    the sources (`strip`, `lower`, `in`, `join`, `split`, `replace`) are
    re-implemented below over `List Char` so that everything reduces in the
    kernel.  `lower`/`strip`/`\w` follow Python restricted to ASCII, which
    covers every input appearing in the sources and in the theorems below.
  * Python floats (timestamps, confidences, distances) are modelled as exact
    rationals/integers; `math.hypot d ≤ r` is modelled by the equivalent
    integer test `0 ≤ r ∧ d.x² + d.y² ≤ r²`.
  * `re.search`/`re.finditer` are modelled for exactly the pattern shapes the
    sources use: alternations of literal phrases delimited by `\b`, optionally
    joined by a greedy `.*` gap (`.` is modelled as matching any character; no
    input in the repository puts a newline inside one token).
-/

namespace Dados

/-! ### Python string primitives (ASCII) -/

/-- Python `str.lower` restricted to ASCII (all inputs used here are ASCII). -/
def lowerChar (c : Char) : Char :=
  if 'A' ≤ c ∧ c ≤ 'Z' then Char.ofNat (c.toNat + 32) else c

/-- Python `str.lower` over a whole string. -/
def pyLower (s : String) : String :=
  (s.data.map lowerChar).asString

/-- Python `str.strip()` (drop leading and trailing whitespace). -/
def pyStrip (s : String) : String :=
  (((s.data.dropWhile Char.isWhitespace).reverse.dropWhile Char.isWhitespace).reverse).asString

/-- Contiguous-sublist test on character lists, mirroring Python `needle in hay`. -/
def listContains (needle : List Char) : List Char → Bool
  | [] => needle.isEmpty
  | c :: t => needle.isPrefixOf (c :: t) || listContains needle t

/-- Python `needle in hay` on strings (contiguous substring). -/
def pyIn (needle hay : String) : Bool :=
  listContains needle.data hay.data

/-- Python `sep.join xs`. -/
def pyJoin (sep : String) : List String → String
  | [] => ""
  | [x] => x
  | x :: xs => x ++ sep ++ pyJoin sep xs

/-- Helper for `pyWords`: accumulate the current word (reversed) while scanning. -/
def pyWordsAux (cur : List Char) : List Char → List String
  | [] => if cur.isEmpty then [] else [cur.reverse.asString]
  | c :: cs =>
    if Char.isWhitespace c then
      if cur.isEmpty then pyWordsAux [] cs
      else cur.reverse.asString :: pyWordsAux [] cs
    else pyWordsAux (c :: cur) cs

/-- Python `str.split()` with no argument: split on whitespace runs, no empties. -/
def pyWords (s : String) : List String :=
  pyWordsAux [] s.data

/-- Helper for `pySplitUnderscore`. -/
def pySplitUnderscoreAux (cur : List Char) : List Char → List String
  | [] => [cur.reverse.asString]
  | c :: cs =>
    if c = '_' then cur.reverse.asString :: pySplitUnderscoreAux [] cs
    else pySplitUnderscoreAux (c :: cur) cs

/-- Python `str.split("_")`: split on every underscore, keeping empty pieces. -/
def pySplitUnderscore (s : String) : List String :=
  pySplitUnderscoreAux [] s.data

/-- Python `str.replace("_", " ")` (single-character needle). -/
def underscoreToSpace (s : String) : String :=
  (s.data.map (fun c => if c = '_' then ' ' else c)).asString

/-! ### A matcher for the regular-expression shapes used by the sources

Every pattern in `safety_manager.py` and `task_parser.py` is a sequence of
literal phrases, each either bare (`-rf`, `if=`) or delimited by word
boundaries (`\brm\b`), joined by greedy `.*` gaps.  `\w` is `[a-zA-Z0-9_]`
(ASCII). -/

/-- ASCII `\w` character class. -/
def isWordChar (c : Char) : Bool :=
  c.isAlphanum || c = '_'

/-- `\b` holds before the current position given the preceding character. -/
def boundaryBefore : Option Char → Bool
  | none => true
  | some c => !isWordChar c

/-- `\b` holds after a consumed phrase given the remaining suffix. -/
def boundaryAfter : List Char → Bool
  | [] => true
  | c :: _ => !isWordChar c

/-- One literal piece of a pattern: a bare literal or a `\b`-delimited phrase. -/
inductive Piece where
  | lit (w : String)
  | word (w : String)
deriving DecidableEq

/-- Try to match one piece at the current position; return the unconsumed suffix. -/
def pieceHere : Piece → Option Char → List Char → Option (List Char)
  | .lit w, _, s =>
    if w.data.isPrefixOf s then some (s.drop w.data.length) else none
  | .word w, prev, s =>
    if boundaryBefore prev ∧ w.data.isPrefixOf s then
      let rest := s.drop w.data.length
      if boundaryAfter rest then some rest else none
    else none

/-- All scan positions of a string with the character preceding each one. -/
def positionsFrom (prev : Option Char) : List Char → List (Option Char × List Char)
  | [] => [(prev, [])]
  | c :: cs => (prev, c :: cs) :: positionsFrom (some c) cs

/-- Preceding character after consuming a piece (pieces here are non-empty). -/
def prevAfter (p : Piece) (prev : Option Char) : Option Char :=
  match p with
  | .lit w | .word w =>
    match w.data.getLast? with
    | some c => some c
    | none => prev

/-- `re.search` on a `p₁.*p₂.*…` pattern: each piece matches somewhere, in
order, with arbitrary gaps.  This is the existential semantics of a Python
`re.search` on such a pattern. -/
def matchPiecesFrom : List Piece → Option Char → List Char → Bool
  | [], _, _ => true
  | p :: rest, prev, s =>
    (positionsFrom prev s).any fun pos =>
      match pieceHere p pos.1 pos.2 with
      | some suffix => matchPiecesFrom rest (prevAfter p pos.1) suffix
      | none => false

/-- `re.search` over a whole haystack. -/
def reSearch (pieces : List Piece) (hay : List Char) : Bool :=
  matchPiecesFrom pieces none hay

/-! ### Decimal rendering of naturals (Python `f"task_{i}"`) -/

/-- Decimal digit character. -/
def digitChar (d : Nat) : Char := Char.ofNat (48 + d)

/-- Fuelled decimal digits (most significant first); `fuel ≥ 1 + log₁₀ n`. -/
def natDigitsAux : Nat → Nat → List Char
  | 0, _ => []
  | fuel + 1, n =>
    if n < 10 then [digitChar n]
    else natDigitsAux fuel (n / 10) ++ [digitChar (n % 10)]

/-- Decimal rendering of a natural number, as Python `str(n)` produces. -/
def natDecimal (n : Nat) : String :=
  (natDigitsAux (n + 1) n).asString

/-- Value of a decimal digit string (left inverse of `natDigitsAux`). -/
def digitsVal (l : List Char) : Nat :=
  l.foldl (fun acc c => acc * 10 + (c.toNat - 48)) 0

theorem digitsVal_append_digit (l : List Char) (c : Char) :
    digitsVal (l ++ [c]) = digitsVal l * 10 + (c.toNat - 48) := by
  simp [digitsVal, List.foldl_append]

theorem digitChar_toNat (d : Nat) (h : d < 10) : (digitChar d).toNat = 48 + d := by
  interval_cases d <;> rfl

theorem digitsVal_natDigitsAux :
    ∀ (fuel n : Nat), n < 10 ^ fuel → digitsVal (natDigitsAux fuel n) = n := by
  intro fuel
  induction fuel with
  | zero =>
    intro n h
    simp at h
    simp [h, natDigitsAux, digitsVal]
  | succ fuel ih =>
    intro n h
    by_cases hn : n < 10
    · simp [natDigitsAux, hn, digitsVal, digitChar_toNat n hn]
    · have hdiv : n / 10 < 10 ^ fuel := by
        rw [Nat.div_lt_iff_lt_mul (by norm_num)]
        calc n < 10 ^ (fuel + 1) := h
        _ = 10 ^ fuel * 10 := by ring
      rw [natDigitsAux]
      simp only [hn, if_false]
      rw [digitsVal_append_digit, ih _ hdiv,
        digitChar_toNat _ (Nat.mod_lt _ (by norm_num))]
      omega

theorem digitsVal_natDecimal (n : Nat) : digitsVal (natDecimal n).data = n := by
  have hlt : n < 10 ^ (n + 1) := by
    calc n < 10 ^ n := Nat.lt_pow_self (by norm_num) n
    _ ≤ 10 ^ (n + 1) := Nat.pow_le_pow_right (by norm_num) (Nat.le_succ n)
  simpa [natDecimal] using digitsVal_natDigitsAux (n + 1) n hlt

theorem natDecimal_inj {m n : Nat} (h : natDecimal m = natDecimal n) : m = n := by
  have := congrArg (fun s => digitsVal (String.data s)) h
  simpa [digitsVal_natDecimal] using this

/-! ### `task_parser.py`: instruction decomposition -/

/-- `TaskType` (task_parser.py lines 13-15). -/
inductive TaskType where
  | parallel
  | sequential
deriving DecidableEq

/-- `Task` (task_parser.py lines 18-23). -/
structure Task where
  id : String
  instruction : String
  task_type : TaskType
  depends_on : List String
deriving DecidableEq

/-- Python `f"task_{i}"`. -/
def taskId (i : Nat) : String :=
  "task_" ++ natDecimal i

theorem taskId_inj {m n : Nat} (h : taskId m = taskId n) : m = n := by
  apply natDecimal_inj
  have hd : ("task_" ++ natDecimal m).data = ("task_" ++ natDecimal n).data :=
    congrArg String.data h
  simp only [String.data_append] at hd
  exact String.ext (List.append_cancel_left hd)

/-- One connector pattern of `TaskParser`.  `phrase w` is `\bw\b`;
`phraseAlt` is the `\bwhile you'?re doing that\b` alternation (the `'?`
optional character expanded into its two literal variants); `phrasePair a b`
is `\ba\b.*\bb\b`. -/
inductive ConnectorPat where
  | phrase (w : String)
  | phraseAlt (w1 w2 : String)
  | phrasePair (a b : String)
deriving DecidableEq

/-- `self.parallel_connectors` (task_parser.py lines 29-35). -/
def parallelConnectors : List ConnectorPat :=
  [ .phrase "and",
    .phrase "also",
    .phraseAlt "while you're doing that" "while youre doing that",
    .phrase "at the same time",
    .phrase "meanwhile" ]

/-- `self.sequential_connectors` (task_parser.py lines 37-44). -/
def sequentialConnectors : List ConnectorPat :=
  [ .phrase "then",
    .phrase "after",
    .phrasePair "once" "done",
    .phrasePair "when" "finished",
    .phrase "next",
    .phrase "followed by" ]

/-- Start offsets (0-based, possibly overlapping) at which phrase `w` occurs
with a word boundary on both sides. -/
def phraseStartsAux (w : List Char) (idx : Nat) (prev : Option Char) :
    List Char → List Nat
  | [] =>
    if w.isPrefixOf [] ∧ boundaryBefore prev then [idx] else []
  | c :: cs =>
    (if boundaryBefore prev ∧ w.isPrefixOf (c :: cs) ∧
        boundaryAfter ((c :: cs).drop w.length) then [idx] else [])
    ++ phraseStartsAux w (idx + 1) (some c) cs

/-- All boundary-delimited occurrences of `w` in `hay`. -/
def phraseStarts (w : List Char) (hay : List Char) : List Nat :=
  phraseStartsAux w 0 none hay

/-- Keep a greedy non-overlapping subset of `(start, end)` spans sorted by
start, exactly as `re.finditer` scans left to right resuming after each
match.  Fuelled by the list length so that it reduces in the kernel. -/
def pickNonOverlapAux : Nat → List (Nat × Nat) → List (Nat × Nat)
  | 0, _ => []
  | _, [] => []
  | fuel + 1, (s, e) :: rest =>
    (s, e) :: pickNonOverlapAux fuel (rest.filter (fun q => e ≤ q.1))

def pickNonOverlap (l : List (Nat × Nat)) : List (Nat × Nat) :=
  pickNonOverlapAux l.length l

/-- Stable insertion by start offset (ties keep earlier-inserted first), the
same order `list.sort(key=lambda x: x[0])` produces. -/
def insertByStart (x : Nat × Nat × TaskType) :
    List (Nat × Nat × TaskType) → List (Nat × Nat × TaskType)
  | [] => [x]
  | y :: ys => if x.1 < y.1 then x :: y :: ys else y :: insertByStart x ys

def sortByStart (l : List (Nat × Nat × TaskType)) : List (Nat × Nat × TaskType) :=
  l.foldl (fun acc x => insertByStart x acc) []

/-- Fuelled merge of two span lists that are each ascending by start. -/
def mergeByStartAux : Nat → List (Nat × Nat) → List (Nat × Nat) → List (Nat × Nat)
  | 0, xs, ys => xs ++ ys
  | _ + 1, [], ys => ys
  | _ + 1, x :: xs, [] => x :: xs
  | fuel + 1, x :: xs, y :: ys =>
    if x.1 ≤ y.1 then x :: mergeByStartAux fuel xs (y :: ys)
    else y :: mergeByStartAux fuel (x :: xs) ys

def mergeByStart (xs ys : List (Nat × Nat)) : List (Nat × Nat) :=
  mergeByStartAux (xs.length + ys.length) xs ys

/-- `re.finditer(pattern, hay)` spans for one connector pattern.

For `phrasePair a b` (`\ba\b.*\bb\b`): the first occurrence of `a` that has
some occurrence of `b` after it starts the single possible match, and the
greedy `.*` extends it to the last occurrence of `b`; no further match can
follow (there is no later `b`). -/
def patFindIter : ConnectorPat → List Char → List (Nat × Nat)
  | .phrase w, hay =>
    pickNonOverlap ((phraseStarts w.data hay).map (fun s => (s, s + w.data.length)))
  | .phraseAlt w1 w2, hay =>
    pickNonOverlap
      (mergeByStart ((phraseStarts w1.data hay).map (fun s => (s, s + w1.data.length)))
        ((phraseStarts w2.data hay).map (fun s => (s, s + w2.data.length))))
  | .phrasePair a b, hay =>
    let as := phraseStarts a.data hay
    let bs := phraseStarts b.data hay
    match as.find? (fun sa => bs.any (fun sb => sa + a.data.length ≤ sb)) with
    | none => []
    | some sa =>
      let lastB := (bs.filter (fun sb => sa + a.data.length ≤ sb)).foldl max 0
      [(sa, lastB + b.data.length)]

/-- `re.search(pattern, text, IGNORECASE)` succeeds iff `finditer` finds a span. -/
def patSearch (p : ConnectorPat) (hay : List Char) : Bool :=
  !(patFindIter p hay).isEmpty

/-- `TaskParser._is_multi_task` (lines 85-88): some connector matches the
text, case-insensitively. -/
def isMultiTask (text : String) : Bool :=
  let hay := text.data.map lowerChar
  (parallelConnectors ++ sequentialConnectors).any (fun p => patSearch p hay)

/-- All connector spans with their `TaskType`, concatenated in the code's
pattern order (parallel patterns first) and then stably sorted by start
offset (lines 96-107). -/
def connectorsFound (hay : List Char) : List (Nat × Nat × TaskType) :=
  sortByStart
    ((parallelConnectors.map
        (fun p => (patFindIter p hay).map (fun m => (m.1, m.2, TaskType.parallel)))).flatten ++
     (sequentialConnectors.map
        (fun p => (patFindIter p hay).map (fun m => (m.1, m.2, TaskType.sequential)))).flatten)

/-- Python slice `text[a:b]` over the original characters. -/
def sliceStr (l : List Char) (a b : Nat) : String :=
  ((l.drop a).take (b - a)).asString

/-- The `for start, end, task_type, connector in connectors_found` loop of
`_split_instruction` (lines 112-120): cut out the segment before each
connector; the first surviving segment is `PARALLEL`, later ones take the
type of the connector that follows them. -/
def cutSegments (orig : List Char) :
    List (Nat × Nat × TaskType) → List (String × TaskType) × Nat → List (String × TaskType) × Nat
  | [], acc => acc
  | (s, e, ty) :: rest, (segments, lastEnd) =>
    if lastEnd < s then
      let seg := pyStrip (sliceStr orig lastEnd s)
      if seg ≠ "" then
        cutSegments orig rest
          (segments ++ [(seg, if segments.isEmpty then TaskType.parallel else ty)], e)
      else cutSegments orig rest (segments, e)
    else cutSegments orig rest (segments, e)

/-- `TaskParser._split_instruction` (lines 90-129). -/
def splitInstruction (text : String) : List (String × TaskType) :=
  let orig := text.data
  let hay := orig.map lowerChar
  let found := connectorsFound hay
  if found.isEmpty then [(text, TaskType.parallel)]
  else
    let cut := cutSegments orig found ([], 0)
    let segments := cut.1
    let lastEnd := cut.2
    let segments2 :=
      if lastEnd < orig.length then
        let finalSeg := pyStrip (sliceStr orig lastEnd orig.length)
        if finalSeg ≠ "" then
          let finalTy :=
            match found.getLast? with
            | some m => m.2.2
            | none => TaskType.parallel
          segments ++ [(finalSeg, finalTy)]
        else segments
      else segments
    if segments2.isEmpty then [(text, TaskType.parallel)] else segments2

/-- The task-construction loop of `TaskParser.parse` (lines 62-83), with the
running index `i` made explicit. -/
def buildTasksAux (i : Nat) : List (String × TaskType) → List Task
  | [] => []
  | (seg, ty) :: rest =>
    { id := taskId i,
      instruction := pyStrip seg,
      task_type := ty,
      depends_on := if ty = TaskType.sequential ∧ 0 < i then [taskId (i - 1)] else [] }
      :: buildTasksAux (i + 1) rest

def buildTasks (segments : List (String × TaskType)) : List Task :=
  buildTasksAux 0 segments

/-- `TaskParser.parse` (lines 46-83). -/
def parse (instruction : String) : List Task :=
  let text := pyStrip instruction
  if !isMultiTask text then
    [{ id := taskId 0, instruction := text, task_type := TaskType.parallel, depends_on := [] }]
  else
    buildTasks (splitInstruction text)

/-! ### `safety_manager.py`: the dangerous-command gate -/

/-- `self.dangerous_patterns` (safety_manager.py lines 13-22), each regex
rendered as its piece sequence. -/
def dangerousPatterns : List (List Piece) :=
  [ [.word "rm", .lit "-rf"],
    [.word "killall"],
    [.word "shutdown"],
    [.word "reboot"],
    [.word "sudo", .word "rm"],
    [.word "dd", .lit "if="],
    [.word "mkfs"],
    [.word "format"] ]

/-- `self.blocked_commands` (lines 25-29). -/
def blockedCommands : List String :=
  ["rm -rf /", "sudo rm -rf /", "format c:"]

/-- `' '.join(cmd).lower()` as computed in both safety methods. -/
def cmdStr (cmd : List String) : String :=
  pyLower (pyJoin " " cmd)

def isBlockedCmd (cmd : List String) : Bool :=
  blockedCommands.contains (cmdStr cmd)

def isDangerousCmd (cmd : List String) : Bool :=
  dangerousPatterns.any (fun pat => reSearch pat (cmdStr cmd).data)

/-- `SafetyManager.requires_confirmation` (lines 31-45). -/
def requiresConfirmation (commands : List (List String)) : Bool :=
  commands.any (fun cmd => isBlockedCmd cmd || isDangerousCmd cmd)

/-- `SafetyManager.filter_safe_commands` (lines 59-69). -/
def filterSafeCommands (commands : List (List String)) : List (List String) :=
  commands.filter (fun cmd => !isBlockedCmd cmd && !isDangerousCmd cmd)

/-! ### `shell_executor.py`: confirmation gate of `ShellExecutor.run` -/

/-- The user's reply at the confirmation prompt; `interrupted` covers the
`EOFError` / `KeyboardInterrupt` branch of `run`. -/
inductive UserResponse where
  | text (s : String)
  | interrupted
deriving DecidableEq

/-- The per-run result fields the gate can produce. -/
structure RunResult where
  ok : Bool
  results : List (List String)
  error : Option String
deriving DecidableEq

/-- Outcome of `ShellExecutor.run` up to the execution loop: either the gate
cancelled the batch (returning `(False, {"results": [], "error": ...})`
before any command runs), or control proceeds to the execution loop over the
given commands. -/
inductive ShellRunOutcome where
  | cancelled (result : RunResult)
  | proceeds (commands : List (List String))
deriving DecidableEq

/-- `ShellExecutor.run` (lines 27-44) restricted to its safety gate.  The
`commands` argument is taken already in token-list form (`_to_tokens` is the
identity on lists of strings). -/
def shellRun (commands : List (List String)) (interactive : Bool)
    (response : UserResponse) : ShellRunOutcome :=
  let tokenCommands := commands.filter (fun cmd => !cmd.isEmpty)
  if interactive && requiresConfirmation tokenCommands then
    match response with
    | .text s =>
      if pyLower (pyStrip s) = "yes" then .proceeds commands
      else .cancelled ⟨false, [], some "User cancelled dangerous operation"⟩
    | .interrupted => .cancelled ⟨false, [], some "User cancelled dangerous operation"⟩
  else .proceeds commands

/-! ### `command_router.py`: routing -/

/-- The three lookup tables of the command library, in insertion order. -/
structure CommandLibrary where
  aliases : List (String × String)
  apps : List (String × List String)
  workflows : List (String × List (List String))

/-- A routing decision (`{"path": ..., "commands": ...}`). -/
inductive RouteDecision where
  | shell (commands : List (List String))
  | gui
  | dictation
deriving DecidableEq

/-- `self.gui_keywords` (command_router.py lines 21-24). -/
def guiKeywords : List String :=
  ["click", "press", "compose", "scroll", "select", "button",
   "menu", "tab", "play", "pause", "submit", "open compose"]

/-- The alias test of `_try_deterministic_match` (line 66). -/
def aliasMatch (aliasKey low : String) : Bool :=
  pyIn (pyLower aliasKey) low ||
    (pySplitUnderscore (pyLower aliasKey)).any (fun word => pyIn word low)

/-- The app test (line 71). -/
def appMatch (appKey low : String) : Bool :=
  pyIn (pyLower appKey) low

/-- `workflow_key.lower().replace("_", " ").split()` (line 78). -/
def workflowKeyWords (workflowKey : String) : List String :=
  pyWords (underscoreToSpace (pyLower workflowKey))

/-- The workflow test (line 79): at least one key word occurs in the lowered
instruction, and the number of occurring key words is at least
`len(key_words) // 2` (floor division). -/
def workflowMatches (workflowKey low : String) : Bool :=
  let keyWords := workflowKeyWords workflowKey
  keyWords.any (fun word => pyIn word low) &&
    decide ((keyWords.filter (fun word => pyIn word low)).length ≥ keyWords.length / 2)

/-- `CommandRouter._try_deterministic_match` (lines 60-82). -/
def tryDeterministicMatch (lib : CommandLibrary) (text : String) : Option RouteDecision :=
  let low := pyStrip (pyLower text)
  match lib.aliases.find? (fun p => aliasMatch p.1 low) with
  | some p => some (.shell [["open", p.2]])
  | none =>
    match lib.apps.find? (fun p => appMatch p.1 low) with
    | some p => some (.shell [p.2])
    | none =>
      match lib.workflows.find? (fun p => workflowMatches p.1 low) with
      | some p => some (.shell p.2)
      | none => none

/-- `CommandRouter.route` (lines 26-58).  `lfmCommands = none` models an
exception in `generate_commands` (treated as no commands, line 51-52). -/
def route (lib : CommandLibrary) (lfmCommands : Option (List (List String)))
    (instruction : String) : RouteDecision :=
  let text := pyStrip instruction
  let low := pyLower text
  match tryDeterministicMatch lib text with
  | some d => d
  | none =>
    if guiKeywords.any (fun k => pyIn k low) then .gui
    else
      match lfmCommands with
      | some cmds => if !cmds.isEmpty then .shell cmds else .dictation
      | none => .dictation

/-! ### `gui_executor.py`: the verify-then-act retry loop

The loop's interaction with the outside world (screenshots plus the two
`suggest_targets` calls per attempt) is summarised by one `AttemptEnv` per
attempt: `predict`/`verify` are the target lists the vision service returns
for the CAPTURE+PREDICT and the VERIFY query of that attempt, with `none`
modelling an exception raised anywhere inside the attempt's phase (the whole
attempt body is wrapped in one `try`).  Confidences are modelled as exact
rationals and `math.hypot dx dy ≤ r` by the equivalent integer test. -/

/-- One predicted target `{x, y, label, confidence}`. -/
structure Target where
  x : Int
  y : Int
  label : String
  confidence : ℚ
deriving DecidableEq

/-- The environment's responses during one attempt. -/
structure AttemptEnv where
  predict : Option (List Target)
  verify : Option (List Target)
deriving DecidableEq

/-- Python `max(targets, key=conf)`: keeps the first element whose key is
maximal (later elements replace only on a strictly greater key). -/
def pyMaxBy (key : Target → ℚ) (x : Target) (xs : List Target) : Target :=
  xs.foldl (fun acc t => if key acc < key t then t else acc) x

/-- Python `min(targets, key=d)`: keeps the first element whose key is
minimal. -/
def pyMinBy (key : Target → Int) (x : Target) (xs : List Target) : Target :=
  xs.foldl (fun acc t => if key t < key acc then t else acc) x

/-- Squared euclidean distance (exact counterpart of `math.hypot`). -/
def dist2 (a b : Int × Int) : Int :=
  (a.1 - b.1) * (a.1 - b.1) + (a.2 - b.2) * (a.2 - b.2)

/-- `GUIExecutor._dist(a, b) <= r` for real distance and integer `r`. -/
def distLe (a b : Int × Int) (r : Int) : Bool :=
  decide (0 ≤ r) && decide (dist2 a b ≤ r * r)

/-- Observable outcome of `GUIExecutor.execute`. -/
inductive GuiOutcome where
  | clicked (point : Int × Int) (retriesUsed : Nat)
  | fallbackEntered
  | errored
  | maxRetriesExceeded
deriving DecidableEq

/-- Result of one iteration of the retry loop: hit a `return`, or `continue`. -/
inductive AttemptResult where
  | done (outcome : GuiOutcome)
  | retry
deriving DecidableEq

/-- One iteration of the `for attempt in range(max_retries)` body of
`GUIExecutor.execute` (lines 44-155).  `isFinal` is
`attempt == max_retries - 1`; note the low-confidence filter (line 92)
compares `attempt` against the literal `2` regardless of `max_retries`. -/
def guiAttempt (radius : Int) (attempt : Nat) (isFinal : Bool) (env : AttemptEnv) :
    AttemptResult :=
  match env.predict with
  | none => if isFinal then .done .errored else .retry
  | some targets =>
    match targets with
    | [] => if isFinal then .done .fallbackEntered else .retry
    | t0 :: trest =>
      let best := pyMaxBy Target.confidence t0 trest
      if attempt < 2 ∧ best.confidence < 1/2 then .retry
      else
        let tx := best.x
        let ty := best.y
        match env.verify with
        | none => if isFinal then .done .errored else .retry
        | some vtargets =>
          let near := vtargets.any (fun t => distLe (t.x, t.y) (tx, ty) radius)
          if !near && !vtargets.isEmpty && !isFinal then .retry
          else
            match vtargets with
            | [] => .done (.clicked (tx, ty) attempt)
            | v0 :: vrest =>
              if !near then
                let closest := pyMinBy (fun t => dist2 (t.x, t.y) (tx, ty)) v0 vrest
                .done (.clicked (closest.x, closest.y) attempt)
              else .done (.clicked (tx, ty) attempt)

/-- The retry loop; one `AttemptEnv` per iteration, so a call with
`envs.length = max_retries` models one run of `execute` and
`rest.isEmpty` is exactly `attempt == max_retries - 1`. -/
def guiLoop (radius : Int) (attempt : Nat) : List AttemptEnv → GuiOutcome
  | [] => .maxRetriesExceeded
  | env :: rest =>
    match guiAttempt radius attempt rest.isEmpty env with
    | .done outcome => outcome
    | .retry => guiLoop radius (attempt + 1) rest

/-- `GUIExecutor.execute` with `max_retries = envs.length` (default 3) and
verify radius `radius` (default 32). -/
def guiExecute (radius : Int) (envs : List AttemptEnv) : GuiOutcome :=
  guiLoop radius 0 envs

/-! ### `context_manager.py`: statuses, summary, dependency wait -/

/-- `TaskStatus` (context_manager.py lines 18-22). -/
inductive TaskStatus where
  | pending
  | running
  | completed
  | failed
deriving DecidableEq

/-- Membership in `[TaskStatus.COMPLETED, TaskStatus.FAILED]` (line 94). -/
def TaskStatus.isTerminal : TaskStatus → Bool
  | .completed => true
  | .failed => true
  | _ => false

/-- `TaskExecution` (lines 25-32).  Timestamps are exact rationals standing
for the float seconds of `time.time()`; the `result` payload is not needed by
any property below and is omitted. -/
structure TaskExecution where
  task : Task
  status : TaskStatus
  error : Option String
  started_at : Option ℚ
  completed_at : Option ℚ
deriving DecidableEq

/-- Python truthiness of an optional float (`None` and `0.0` are falsy), as
used by `if e.completed_at and e.started_at` (line 173). -/
def truthyTime : Option ℚ → Bool
  | none => false
  | some x => !(x = 0 : Bool)

/-- `e.completed_at or 0` (line 171). -/
def orZero : Option ℚ → ℚ
  | none => 0
  | some x => x

/-- The summary dictionary of `get_execution_summary` (lines 159-177);
`total_execution_time = none` models the key being absent. -/
structure ExecutionSummary where
  total_tasks : Nat
  completed : Nat
  failed : Nat
  running : Nat
  pending : Nat
  total_execution_time : Option ℚ
deriving DecidableEq

/-- `ContextManager.get_execution_summary` over the executions map's values
in insertion order (lines 159-177). -/
def getExecutionSummary (executions : List TaskExecution) : ExecutionSummary :=
  let completed := executions.countP (fun e => e.status = TaskStatus.completed)
  { total_tasks := executions.length,
    completed := completed,
    failed := executions.countP (fun e => e.status = TaskStatus.failed),
    running := executions.countP (fun e => e.status = TaskStatus.running),
    pending := executions.countP (fun e => e.status = TaskStatus.pending),
    total_execution_time :=
      if 0 < completed then
        some (((executions.filter
                  (fun e => truthyTime e.completed_at && truthyTime e.started_at)).map
                (fun e => orZero e.completed_at - orZero e.started_at)).sum)
      else none }

/-- The spec's description of the total time (§4.4 / claim C7): the sum of
`completed_at - started_at` over exactly the tasks whose status is
`completed`.  Stated from the spec's words, for comparison with
`getExecutionSummary`. -/
def specCompletedExecutionTime (executions : List TaskExecution) : ℚ :=
  ((executions.filter (fun e => e.status = TaskStatus.completed)).map
    (fun e => orZero e.completed_at - orZero e.started_at)).sum

/-- Status map after the initialisation loop of `execute_tasks`
(lines 53-54): every listed task id is `PENDING`. -/
def initExecutions (tasks : List Task) : String → Option TaskStatus :=
  fun id => if tasks.any (fun t => t.id = id) then some TaskStatus.pending else none

/-- The only assignment `_execute_single_task` makes to `status`
(line 115). -/
def workerFirstStatusWrite : TaskStatus := TaskStatus.running

/-- Status map visible after some set of workers have executed line 115.
While `execute_tasks` is still inside its submission loop (lines 59-73) these
are the only writes possible: terminal statuses are assigned exclusively by
the collection loop (lines 76-83), which starts only after every task has
been submitted. -/
def applyWorkerStarts (σ : String → Option TaskStatus) (started : List String) :
    String → Option TaskStatus :=
  fun id =>
    if started.contains id then (σ id).map (fun _ => workerFirstStatusWrite)
    else σ id

/-- A status map observable by `_wait_for_dependencies` while the submission
loop is still running. -/
def SubmissionPhaseView (tasks : List Task) (σ : String → Option TaskStatus) : Prop :=
  ∃ started : List String, σ = applyWorkerStarts (initExecutions tasks) started

/-- One poll of `_wait_for_dependencies` (lines 89-98): a dependency id that
is present in the executions map must be terminal; unknown ids are skipped. -/
def allDepsDone (σ : String → Option TaskStatus) (deps : List String) : Bool :=
  deps.all fun depId =>
    match σ depId with
    | some s => s.isTerminal
    | none => true

/-- The polling loop of `_wait_for_dependencies` observed for `fuel`
iterations, the status map at poll `k` being `σs k`: `true` iff some poll
within `fuel` sees all dependencies terminal (and the loop exits). -/
def waitForDependencies (σs : Nat → (String → Option TaskStatus)) (deps : List String) :
    Nat → Bool
  | 0 => false
  | fuel + 1 =>
    allDepsDone (σs 0) deps || waitForDependencies (fun k => σs (k + 1)) deps fuel

/-! ### `context_manager.py`: schedules of one `execute_tasks` run

For claim C4 the concurrent run is modelled by traces of events over task
ids.  `start id` is the worker's entry into `_execute_single_task` (sets
`RUNNING`, line 115); `finishOk`/`finishErr` is the worker function returning
or raising (resolving the future; no status write); `collectOk`/`collectErr`/
`collectTimeout` are the three outcomes of `future.result(timeout=300)` in
the collection loop (lines 76-83): normal result (sets `COMPLETED`), a
re-raised worker exception, or a `TimeoutError` — both of the latter set
`FAILED`.  `collectTimeout` is possible while the task's worker has not even
started: a submitted callable stays queued while the pool (default 3
workers) is saturated, and `future.result` still raises after 300s. -/
inductive TEvent where
  | start (id : String)
  | finishOk (id : String)
  | finishErr (id : String)
  | collectOk (id : String)
  | collectErr (id : String)
  | collectTimeout (id : String)
deriving DecidableEq

/-- Pointwise update of a status map. -/
def setStatus (σ : String → TaskStatus) (id : String) (s : TaskStatus) :
    String → TaskStatus :=
  fun x => if x = id then s else σ x

/-- The status write each event performs (lines 80, 83, 115). -/
def applyEvent (σ : String → TaskStatus) : TEvent → (String → TaskStatus)
  | .start id => setStatus σ id TaskStatus.running
  | .finishOk _ => σ
  | .finishErr _ => σ
  | .collectOk id => setStatus σ id TaskStatus.completed
  | .collectErr id => setStatus σ id TaskStatus.failed
  | .collectTimeout id => setStatus σ id TaskStatus.failed

def statusFrom (σ : String → TaskStatus) : List TEvent → (String → TaskStatus)
  | [] => σ
  | e :: tr => statusFrom (applyEvent σ e) tr

/-- Status of `id` after the first `k` events of `tr` (all tasks start
`PENDING`, line 54). -/
def statusAt (tr : List TEvent) (k : Nat) (id : String) : TaskStatus :=
  statusFrom (fun _ => TaskStatus.pending) (tr.take k) id

/-- Per-task bookkeeping used to say which traces are schedules the code can
produce. -/
structure WState where
  started : Bool
  finished : Bool
  finOk : Bool
  collected : Bool
deriving DecidableEq

def WState.init : WState := ⟨false, false, false, false⟩

def setW (st : String → WState) (id : String) (w : WState) : String → WState :=
  fun x => if x = id then w else st x

/-- Number of workers currently inside `_execute_single_task`. -/
def runningWorkers (ids : List String) (st : String → WState) : Nat :=
  ids.countP (fun i => (st i).started && !(st i).finished)

/-- The id the collection loop (line 76, iterating futures in submission
order) is currently blocked on. -/
def nextUncollected (ids : List String) (st : String → WState) : Option String :=
  ids.find? (fun i => !(st i).collected)

/-- Which events the code can perform in a given bookkeeping state:
a worker starts at most once, and only while a pool slot (of `maxW`) is
free; it finishes (once) only after starting; `future.result` returns
normally only for a worker that returned (`finOk`), re-raises only for a
worker that raised, and times out only while the worker has not finished —
possibly before it ever started; futures are collected in submission
order, each exactly once. -/
def stepOk (ids : List String) (maxW : Nat) (st : String → WState) :
    TEvent → Option (String → WState)
  | .start id =>
    if ids.contains id ∧ (st id).started = false ∧ runningWorkers ids st < maxW then
      some (setW st id { st id with started := true })
    else none
  | .finishOk id =>
    if (st id).started = true ∧ (st id).finished = false then
      some (setW st id { st id with finished := true, finOk := true })
    else none
  | .finishErr id =>
    if (st id).started = true ∧ (st id).finished = false then
      some (setW st id { st id with finished := true })
    else none
  | .collectOk id =>
    if nextUncollected ids st = some id ∧ (st id).finOk = true then
      some (setW st id { st id with collected := true })
    else none
  | .collectErr id =>
    if nextUncollected ids st = some id ∧ (st id).finished = true ∧ (st id).finOk = false then
      some (setW st id { st id with collected := true })
    else none
  | .collectTimeout id =>
    if nextUncollected ids st = some id ∧ (st id).finished = false then
      some (setW st id { st id with collected := true })
    else none

def traceRun (ids : List String) (maxW : Nat) (st : String → WState) :
    List TEvent → Option (String → WState)
  | [] => some st
  | e :: tr =>
    match stepOk ids maxW st e with
    | some st2 => traceRun ids maxW st2 tr
    | none => none

/-- A trace is a schedule the code can produce (as a prefix of a run). -/
def traceOk (ids : List String) (maxW : Nat) (tr : List TEvent) : Bool :=
  (traceRun ids maxW (fun _ => WState.init) tr).isSome

/-- Claim C4 as a decidable check on one trace: no task ever steps from
`PENDING` directly to a terminal status. -/
def noPendingJump (ids : List String) (tr : List TEvent) : Bool :=
  (List.range tr.length).all fun k =>
    ids.all fun id =>
      !(statusAt tr k id = TaskStatus.pending &&
        (statusAt tr (k + 1) id).isTerminal)

/-! ## Helper lemmas for the decomposer -/

/-- The task built for position `n` from segment `p`. -/
def mkParsedTask (n : Nat) (p : String × TaskType) : Task :=
  { id := taskId n,
    instruction := pyStrip p.1,
    task_type := p.2,
    depends_on := if p.2 = TaskType.sequential ∧ 0 < n then [taskId (n - 1)] else [] }

theorem buildTasksAux_length (segments : List (String × TaskType)) :
    ∀ i, (buildTasksAux i segments).length = segments.length := by
  induction segments with
  | nil => intro i; rfl
  | cons p rest ih => intro i; simp [buildTasksAux, ih]

theorem buildTasksAux_getElem (segments : List (String × TaskType)) :
    ∀ (i j : Nat) (hj : j < segments.length)
      (hj2 : j < (buildTasksAux i segments).length),
      (buildTasksAux i segments)[j] = mkParsedTask (i + j) segments[j] := by
  induction segments with
  | nil => intro i j hj _; exact absurd hj (by simp)
  | cons p rest ih =>
    intro i j hj hj2
    cases j with
    | zero => simp [buildTasksAux, mkParsedTask]
    | succ j =>
      have hj' : j < rest.length := by simpa using hj
      have hj2' : j < (buildTasksAux (i + 1) rest).length := by
        rw [buildTasksAux_length]; exact hj'
      have := ih (i + 1) j hj' hj2'
      simp only [buildTasksAux, List.getElem_cons_succ]
      rw [this]
      congr 1
      omega

/-! ## Claim C8 -/

/-- Claim C8: for every input string, every task list returned by the
decomposer satisfies: task ids are the positional ids `task_i`; every
dependency id refers to a task at a strictly earlier position of the same
list (hence the dependency relation is acyclic and stays inside the batch);
no task depends on itself; a `parallel` task has no dependencies; and a
`sequential` task at position `j > 0` depends exactly on the task at
position `j - 1`. -/
theorem parse_dependency_invariants :
    ∀ (instruction : String) (j : Nat) (hj : j < (parse instruction).length),
      (parse instruction)[j].id = taskId j ∧
      ((parse instruction)[j].task_type = TaskType.parallel →
        (parse instruction)[j].depends_on = []) ∧
      ((parse instruction)[j].task_type = TaskType.sequential → 0 < j →
        (parse instruction)[j].depends_on = [taskId (j - 1)]) ∧
      (∀ d ∈ (parse instruction)[j].depends_on,
        ∃ i, ∃ hi : i < (parse instruction).length,
          i < j ∧ (parse instruction)[i].id = d) ∧
      (parse instruction)[j].id ∉ (parse instruction)[j].depends_on := by
  intro instruction
  by_cases hm : isMultiTask (pyStrip instruction) = true
  · have hpar : parse instruction = buildTasks (splitInstruction (pyStrip instruction)) := by
      simp [parse, hm]
    rw [hpar]
    intro j hj
    set segments := splitInstruction (pyStrip instruction) with hsegs
    have hlen : (buildTasks segments).length = segments.length := buildTasksAux_length segments 0
    have hjseg : j < segments.length := by rw [← hlen]; exact hj
    have hget : (buildTasks segments)[j] = mkParsedTask j segments[j] := by
      have := buildTasksAux_getElem segments 0 j hjseg hj
      simpa [buildTasks] using this
    rw [hget]
    refine ⟨rfl, ?_, ?_, ?_, ?_⟩
    · intro hty
      simp only [mkParsedTask] at hty ⊢
      rw [if_neg]
      rintro ⟨h1, -⟩
      rw [hty] at h1
      exact TaskType.noConfusion h1
    · intro hty hjpos
      simp only [mkParsedTask] at hty ⊢
      rw [if_pos ⟨hty, hjpos⟩]
    · intro d hd
      simp only [mkParsedTask] at hd
      by_cases hcond : segments[j].2 = TaskType.sequential ∧ 0 < j
      · rw [if_pos hcond] at hd
        simp only [List.mem_singleton] at hd
        subst hd
        refine ⟨j - 1, ?_, ?_, ?_⟩
        · rw [hlen]; omega
        · omega
        · have hj1 : j - 1 < segments.length := by omega
          have hj1' : j - 1 < (buildTasks segments).length := by rw [hlen]; omega
          have := buildTasksAux_getElem segments 0 (j - 1) hj1 hj1'
          simp only [buildTasks] at *
          rw [this]
          simp [mkParsedTask]
      · rw [if_neg hcond] at hd
        exact absurd hd (List.not_mem_nil d)
    · intro hmem
      simp only [mkParsedTask] at hmem
      by_cases hcond : segments[j].2 = TaskType.sequential ∧ 0 < j
      · rw [if_pos hcond] at hmem
        simp only [List.mem_singleton] at hmem
        have := taskId_inj hmem
        omega
      · rw [if_neg hcond] at hmem
        exact absurd hmem (List.not_mem_nil _)
  · have hm2 : isMultiTask (pyStrip instruction) = false := by
      cases h : isMultiTask (pyStrip instruction)
      · rfl
      · exact absurd h hm
    have hpar : parse instruction =
        [{ id := taskId 0, instruction := pyStrip instruction,
           task_type := TaskType.parallel, depends_on := [] }] := by
      simp [parse, hm2]
    rw [hpar]
    intro j hj
    have hj0 : j = 0 := by simpa using hj
    subst hj0
    refine ⟨rfl, fun _ => rfl, ?_, ?_, ?_⟩
    · intro hty
      exact absurd hty (by simp)
    · intro d hd
      exact absurd hd (List.not_mem_nil d)
    · exact List.not_mem_nil _

/-- Witness for C8 at position 1 of the concrete two-task decomposition of
`"open a file then save it"`: the sequential second task does not depend on
itself. -/
theorem parse_dependency_invariants_witness :
    ((parse "open a file then save it").get ⟨1, by decide⟩).id ∉
      ((parse "open a file then save it").get ⟨1, by decide⟩).depends_on :=
  (parse_dependency_invariants "open a file then save it" 1 (by decide)).2.2.2.2

/-! ## Claim C9 -/

/-- Claim C9: for every instruction string containing no parallel or
sequential connector phrase (no connector regex matches the stripped text),
`parse` returns exactly one task, of kind `parallel`, with no dependencies,
whose instruction is the stripped input. -/
theorem parse_no_connector_single_task :
    ∀ instruction : String, isMultiTask (pyStrip instruction) = false →
      parse instruction =
        [{ id := taskId 0, instruction := pyStrip instruction,
           task_type := TaskType.parallel, depends_on := [] }] := by
  intro instruction h
  simp [parse, h]

/-- Witness for C9 at the concrete connector-free instruction
`"open firefox"`. -/
theorem parse_no_connector_single_task_witness :
    parse "open firefox" =
      [{ id := taskId 0, instruction := pyStrip "open firefox",
         task_type := TaskType.parallel, depends_on := [] }] :=
  parse_no_connector_single_task "open firefox" (by decide)

/-! ## Claim C10 -/

/-- Claim C10: `filter_safe_commands` returns a subsequence of its input, and
`requires_confirmation` on its output is always `False` — the static filter
removes exactly the entries that would trigger the confirmation gate. -/
theorem filter_safe_commands_sound :
    ∀ commands : List (List String),
      (filterSafeCommands commands).Sublist commands ∧
      requiresConfirmation (filterSafeCommands commands) = false := by
  intro commands
  refine ⟨List.filter_sublist commands, ?_⟩
  rw [requiresConfirmation]
  rw [List.any_eq_false]
  intro cmd hcmd
  rw [filterSafeCommands, List.mem_filter] at hcmd
  have h2 := hcmd.2
  simp only [Bool.and_eq_true, Bool.not_eq_true'] at h2
  simp [h2.1, h2.2]

/-! ## Claim C5 -/

/-- Counterexample to claim C5 as stated: the response `"YES"` differs from
the exact string `"yes"`, yet `run` proceeds to execute the dangerous batch,
because the code compares `input(...).strip().lower()` (shell_executor.py
line 40) — the gate is case- and whitespace-insensitive, not exact-match. -/
theorem shell_gate_accepts_uppercase_yes :
    shellRun [["rm", "-rf", "/"]] true (UserResponse.text "YES") =
      ShellRunOutcome.proceeds [["rm", "-rf", "/"]] ∧
    "YES" ≠ "yes" := by
  constructor
  · decide
  · decide

/-- Claim C5 (amended): when the safety gate fires, a response confirms
execution iff its whitespace-stripped, lowercased form equals `"yes"`; every
other response, and an end-of-input or interrupt condition, cancels the
batch before any command is executed, returning failure with the descriptive
cancellation result. -/
theorem shell_gate_cancellation_amended :
    ∀ (commands : List (List String)) (response : UserResponse),
      requiresConfirmation (commands.filter (fun cmd => !cmd.isEmpty)) = true →
      ((∃ s, response = UserResponse.text s ∧ pyLower (pyStrip s) = "yes") →
        shellRun commands true response = ShellRunOutcome.proceeds commands) ∧
      ((∀ s, response = UserResponse.text s → pyLower (pyStrip s) ≠ "yes") →
        shellRun commands true response =
          ShellRunOutcome.cancelled ⟨false, [], some "User cancelled dangerous operation"⟩) := by
  intro commands response hgate
  constructor
  · rintro ⟨s, rfl, hs⟩
    simp [shellRun, hgate, hs]
  · intro hno
    cases response with
    | text s =>
      have := hno s rfl
      simp [shellRun, hgate, this]
    | interrupted => simp [shellRun, hgate]

/-- Witness for the amended C5 at the concrete refusal `"no"` on a blocked
batch. -/
theorem shell_gate_cancellation_amended_witness :
    shellRun [["rm", "-rf", "/"]] true (UserResponse.text "no") =
      ShellRunOutcome.cancelled ⟨false, [], some "User cancelled dangerous operation"⟩ :=
  (shell_gate_cancellation_amended [["rm", "-rf", "/"]] (UserResponse.text "no")
      (by decide)).2
    (by intro s hs; cases hs; decide)

/-! ## Claim C6 -/

/-- Counterexample to claim C6 as stated: with the workflow key-phrase
`"alpha bravo charlie"` (three words) and the instruction `"alpha"`, only one
of the three key words appears — strictly fewer than half — yet the router
matches the workflow and returns its commands, because the code demands only
`len(key_words) // 2` occurrences (floor division, command_router.py line
79): one out of three. -/
theorem workflow_match_below_half :
    route ⟨[], [], [("alpha bravo charlie", [["echo", "hi"]])]⟩ none "alpha" =
      RouteDecision.shell [["echo", "hi"]] ∧
    2 * ((workflowKeyWords "alpha bravo charlie").filter
          (fun w => pyIn w (pyStrip (pyLower "alpha")))).length <
      (workflowKeyWords "alpha bravo charlie").length := by
  constructor
  · decide
  · decide

/-- Claim C6 (amended): a workflow entry matches iff at least one of its
key-phrase words occurs in the lowercased instruction and the number of
occurring key words is at least `⌊n/2⌋` where `n` is the key-word count
(integer floor division, so e.g. one of three words suffices); given a
library with no alias and no app entries, `route` returns path `shell` with
the command list of the first matching workflow. -/
theorem workflow_match_characterization :
    ∀ (wfs : List (String × List (List String))) (key low : String)
      (cmds : List (List String)) (instr : String),
      (workflowMatches key low = true ↔
        (0 < (workflowKeyWords key).countP (fun w => pyIn w low) ∧
         (workflowKeyWords key).length / 2 ≤
           (workflowKeyWords key).countP (fun w => pyIn w low))) ∧
      (wfs.find? (fun p => workflowMatches p.1 (pyStrip (pyLower (pyStrip instr)))) =
          some (key, cmds) →
        route ⟨[], [], wfs⟩ none instr = RouteDecision.shell cmds) := by
  intro wfs key low cmds instr
  constructor
  · rw [workflowMatches]
    simp only [Bool.and_eq_true, decide_eq_true_eq, List.any_eq_true]
    rw [List.countP_eq_length_filter]
    constructor
    · rintro ⟨⟨w, hw, hpw⟩, hlen⟩
      refine ⟨?_, hlen⟩
      rw [List.length_pos]
      intro hempty
      rw [List.eq_nil_iff_forall_not_mem] at hempty
      exact hempty w (List.mem_filter.mpr ⟨hw, hpw⟩)
    · rintro ⟨hpos, hlen⟩
      refine ⟨?_, hlen⟩
      rw [List.length_pos] at hpos
      obtain ⟨w, hw⟩ := List.exists_mem_of_ne_nil _ hpos
      have := List.mem_filter.mp hw
      exact ⟨w, this.1, this.2⟩
  · intro hfind
    simp [route, tryDeterministicMatch, hfind]

/-- Witness for the amended C6: a two-word workflow key whose words both
occur routes to its commands. -/
theorem workflow_match_characterization_witness :
    route ⟨[], [], [("open project", [["code", "."]])]⟩ none "open project please" =
      RouteDecision.shell [["code", "."]] :=
  (workflow_match_characterization [("open project", [["code", "."]])] "open project"
      "open project please" [["code", "."]] "open project please").2 (by decide)

/-! ## Claim C7 -/

/-- Running example for C7: one completed task (duration 5) and one failed
task whose worker raised after 7 seconds — the worker writes `started_at`
on entry (line 116) and `completed_at` in its exception handler (line 151),
so a failed execution carries both timestamps. -/
def summaryExample : List TaskExecution :=
  [ { task := { id := taskId 0, instruction := "a", task_type := TaskType.parallel,
                depends_on := [] },
      status := TaskStatus.completed, error := none,
      started_at := some 1, completed_at := some 6 },
    { task := { id := taskId 1, instruction := "b", task_type := TaskType.parallel,
                depends_on := [] },
      status := TaskStatus.failed, error := some "boom",
      started_at := some 2, completed_at := some 9 } ]

/-- Counterexample to claim C7 as stated: `get_execution_summary` sums the
durations of every execution that has both timestamps set (line 173), so the
failed task's 7 seconds are included and the reported total is 12, while the
sum over exactly the completed tasks is 5. -/
theorem summary_time_includes_failed_tasks :
    (getExecutionSummary summaryExample).total_execution_time = some 12 ∧
    specCompletedExecutionTime summaryExample = 5 ∧
    (12 : ℚ) ≠ 5 := by
  refine ⟨?_, ?_, ?_⟩
  · norm_num [getExecutionSummary, summaryExample, truthyTime, orZero, List.filter]
  · have hd : decide (TaskStatus.failed = TaskStatus.completed) = false := rfl
    norm_num [specCompletedExecutionTime, summaryExample, orZero, List.filter, hd]
  · norm_num

/-- Claim C7 (amended): the summary's total/completed/failed/running/pending
counts partition the execution map, and its total execution time — present
only when at least one task completed — is the sum of
`completed_at - started_at` over every execution with both timestamps set
truthy, which includes failed tasks whose worker raised after starting, not
only the completed ones. -/
theorem execution_summary_amended :
    ∀ executions : List TaskExecution,
      (getExecutionSummary executions).total_tasks = executions.length ∧
      (getExecutionSummary executions).completed + (getExecutionSummary executions).failed +
          (getExecutionSummary executions).running +
          (getExecutionSummary executions).pending = executions.length ∧
      (getExecutionSummary executions).total_execution_time =
        (if 0 < executions.countP (fun e => e.status = TaskStatus.completed) then
          some (((executions.filter
                    (fun e => truthyTime e.completed_at && truthyTime e.started_at)).map
                  (fun e => orZero e.completed_at - orZero e.started_at)).sum)
        else none) := by
  intro executions
  refine ⟨rfl, ?_, rfl⟩
  simp only [getExecutionSummary]
  induction executions with
  | nil => rfl
  | cons e rest ih =>
    simp only [List.countP_cons, List.length_cons]
    cases e.status <;> simp_all <;> omega

/-! ## Claim C2 -/

/-- The only way one loop iteration returns the fallback outcome is the
`if not targets` branch on the final attempt (gui_executor.py lines 75-78). -/
theorem guiAttempt_eq_fallback {radius : Int} {attempt : Nat} {isFinal : Bool}
    {env : AttemptEnv}
    (h : guiAttempt radius attempt isFinal env = AttemptResult.done GuiOutcome.fallbackEntered) :
    isFinal = true ∧ env.predict = some [] := by
  obtain ⟨p, v⟩ := env
  cases p with
  | none =>
    cases isFinal <;> simp [guiAttempt] at h
  | some targets =>
    cases targets with
    | nil =>
      cases isFinal
      · simp [guiAttempt] at h
      · exact ⟨rfl, rfl⟩
    | cons t0 trest =>
      exfalso
      rw [guiAttempt] at h
      simp only at h
      split at h
      · simp at h
      · split at h
        · split at h <;> simp at h
        · split at h
          · simp at h
          · split at h
            · simp at h
            · split at h <;> simp at h

/-- Concrete environments for the C2 counterexample: two attempts that do
predict a candidate (confidence 0.3, rejected by the early-attempt filter of
line 92) followed by a final attempt that predicts nothing. -/
def lowConfEnv : AttemptEnv :=
  { predict := some [{ x := 5, y := 5, label := "btn", confidence := 3/10 }],
    verify := none }

def emptyPredictEnv : AttemptEnv :=
  { predict := some [], verify := none }

/-- Counterexample to claim C2 as stated: a run in which attempts 0 and 1
each predicted a non-empty target list (one low-confidence candidate) still
ends in the keyboard-shortcut fallback, because the final attempt predicted
nothing — the fallback condition looks only at the final attempt's
candidates. -/
theorem gui_fallback_after_nonempty_predict :
    guiExecute 32 [lowConfEnv, lowConfEnv, emptyPredictEnv] = GuiOutcome.fallbackEntered ∧
    lowConfEnv.predict = some [{ x := 5, y := 5, label := "btn", confidence := 3/10 }] ∧
    some [({ x := 5, y := 5, label := "btn", confidence := 3/10 } : Target)] ≠
      some ([] : List Target) := by
  refine ⟨?_, rfl, by simp⟩
  norm_num [guiExecute, guiLoop, guiAttempt, lowConfEnv, emptyPredictEnv, pyMaxBy]

/-- Claim C2 (amended): the fallback is entered exactly from the final
attempt, and only when that final attempt's PREDICT step returned zero
candidate targets; earlier attempts may well have produced candidates (for
example candidates rejected by the low-confidence filter). -/
theorem gui_fallback_only_final_empty_predict :
    ∀ (radius : Int) (attempt : Nat) (envs : List AttemptEnv),
      guiLoop radius attempt envs = GuiOutcome.fallbackEntered →
      ∃ env, envs.getLast? = some env ∧ env.predict = some [] := by
  intro radius attempt envs
  induction envs generalizing attempt with
  | nil => intro h; simp [guiLoop] at h
  | cons env rest ih =>
    intro h
    rw [guiLoop] at h
    cases hstep : guiAttempt radius attempt rest.isEmpty env with
    | done outcome =>
      rw [hstep] at h
      simp only at h
      subst h
      obtain ⟨hfin, hp⟩ := guiAttempt_eq_fallback hstep
      have hrest : rest = [] := by
        cases rest with
        | nil => rfl
        | cons r rs => simp at hfin
      subst hrest
      exact ⟨env, rfl, hp⟩
    | retry =>
      rw [hstep] at h
      simp only at h
      obtain ⟨e, hlast, hp⟩ := ih (attempt + 1) h
      refine ⟨e, ?_, hp⟩
      cases rest with
      | nil => simp at hlast
      | cons r rs => rw [List.getLast?_cons_cons]; exact hlast

/-- Witness for the amended C2: a single-attempt run whose (final) attempt
predicts nothing enters the fallback, and the theorem recovers that its last
attempt's prediction was empty. -/
theorem gui_fallback_only_final_empty_predict_witness :
    ∃ env, [emptyPredictEnv].getLast? = some env ∧ env.predict = some [] :=
  gui_fallback_only_final_empty_predict 32 0 [emptyPredictEnv] rfl

/-! ## Claim C3 -/

/-- Concrete environment for the C3 counterexample: a confident prediction
whose verification query returns zero targets. -/
def emptyVerifyEnv : AttemptEnv :=
  { predict := some [{ x := 10, y := 10, label := "send", confidence := 9/10 }],
    verify := some [] }

/-- Counterexample to claim C3 as stated: on attempt 0 of 3 (not the final
attempt) the verification query returns zero targets, so no freshly
predicted target lies within the verify radius — the claim demands a retry
without clicking — yet the code clicks immediately at the originally chosen
point (the retry guard at line 129 additionally requires `v_targets` to be
non-empty, and the snap branch at line 132 likewise). -/
theorem gui_verify_empty_targets_clicks_immediately :
    guiExecute 32 [emptyVerifyEnv, emptyPredictEnv, emptyPredictEnv] =
      GuiOutcome.clicked (10, 10) 0 ∧
    emptyVerifyEnv.verify = some [] ∧
    ([emptyVerifyEnv, emptyPredictEnv, emptyPredictEnv] : List AttemptEnv).length = 3 := by
  refine ⟨?_, rfl, rfl⟩
  norm_num [guiExecute, guiLoop, guiAttempt, emptyVerifyEnv, pyMaxBy]

/-- Claim C3 (amended): in the VERIFY step, when no freshly predicted target
lies within the verify radius of the chosen point *and the verification
query returned at least one target*: a non-final attempt retries from
CAPTURE without clicking, and the final attempt snaps the click to the
closest freshly predicted target.  When the verification query returns zero
targets, however, the attempt clicks the originally chosen point at once, on
final and non-final attempts alike. -/
theorem gui_verify_miss_behaviour :
    ∀ (radius : Int) (attempt : Nat) (isFinal : Bool) (env : AttemptEnv)
      (t0 : Target) (trest vts : List Target) (best : Target),
      env.predict = some (t0 :: trest) →
      pyMaxBy Target.confidence t0 trest = best →
      ¬(attempt < 2 ∧ best.confidence < 1/2) →
      env.verify = some vts →
      (∀ t ∈ vts, distLe (t.x, t.y) (best.x, best.y) radius = false) →
      (vts ≠ [] → isFinal = false →
        guiAttempt radius attempt isFinal env = AttemptResult.retry) ∧
      (∀ v0 vrest, vts = v0 :: vrest → isFinal = true →
        guiAttempt radius attempt isFinal env = AttemptResult.done
          (GuiOutcome.clicked
            ((pyMinBy (fun t => dist2 (t.x, t.y) (best.x, best.y)) v0 vrest).x,
             (pyMinBy (fun t => dist2 (t.x, t.y) (best.x, best.y)) v0 vrest).y)
            attempt)) ∧
      (vts = [] →
        guiAttempt radius attempt isFinal env = AttemptResult.done
          (GuiOutcome.clicked (best.x, best.y) attempt)) := by
  intro radius attempt isFinal env t0 trest vts best hp hbest hconf hv hmiss
  obtain ⟨p, v⟩ := env
  simp only at hp hv
  subst hp
  subst hv
  have hnear : vts.any (fun t => distLe (t.x, t.y) (best.x, best.y) radius) = false := by
    rw [List.any_eq_false]
    intro t ht
    simp [hmiss t ht]
  rw [guiAttempt]
  simp only [hbest, if_neg hconf, hnear]
  refine ⟨?_, ?_, ?_⟩
  · intro hne hfin
    subst hfin
    rw [if_pos]
    simp [List.isEmpty_eq_true, hne]
  · intro v0 vrest hvts hfin
    subst hvts
    subst hfin
    rw [if_neg (by simp)]
    simp
  · intro hvts
    subst hvts
    simp

/-- Witness for the amended C3 on its zero-verification-targets branch, at a
non-final attempt with a maximally confident target. -/
theorem gui_verify_miss_behaviour_witness :
    guiAttempt 32 2 false
      { predict := some [{ x := 10, y := 10, label := "send", confidence := 9/10 }],
        verify := some [] } =
      AttemptResult.done
        (GuiOutcome.clicked
          (({ x := 10, y := 10, label := "send", confidence := 9/10 } : Target).x,
           ({ x := 10, y := 10, label := "send", confidence := 9/10 } : Target).y) 2) :=
  (gui_verify_miss_behaviour 32 2 false _ _ [] []
      { x := 10, y := 10, label := "send", confidence := 9/10 }
      rfl rfl (by simp) rfl (by simp)).2.2 rfl

/-! ## Claim C1 -/

/-- During the submission phase every status an observable map assigns to an
id of the batch is non-terminal. -/
theorem submission_phase_not_terminal
    {tasks : List Task} {σ : String → Option TaskStatus} {d : String}
    (hview : SubmissionPhaseView tasks σ)
    (hmem : tasks.any (fun t => t.id = d) = true) :
    ∃ s, σ d = some s ∧ s.isTerminal = false := by
  obtain ⟨started, rfl⟩ := hview
  have hinit : initExecutions tasks d = some TaskStatus.pending := by
    simp [initExecutions, hmem]
  cases hs : started.contains d with
  | false =>
    refine ⟨TaskStatus.pending, ?_, rfl⟩
    show (if started.contains d = true then
        (initExecutions tasks d).map (fun _ => workerFirstStatusWrite)
      else initExecutions tasks d) = some TaskStatus.pending
    rw [hs, if_neg (by simp), hinit]
  | true =>
    refine ⟨workerFirstStatusWrite, ?_, rfl⟩
    show (if started.contains d = true then
        (initExecutions tasks d).map (fun _ => workerFirstStatusWrite)
      else initExecutions tasks d) = some workerFirstStatusWrite
    rw [hs, if_pos rfl, hinit]
    rfl

/-- Claim C1 is a code bug: `execute_tasks` calls `_wait_for_dependencies`
from inside its submission loop (context_manager.py line 61), but terminal
statuses are assigned exclusively by the collection loop (lines 76-83) that
runs only after every task has been submitted; workers write only `RUNNING`
(line 115).  Hence for any task whose dependency id belongs to the batch the
poll `all_deps_done` can never succeed: the wait loop spins forever and
`execute_tasks` never returns, contradicting the claimed termination and
finalization.  This theorem shows the divergence: for every fuel bound and
every sequence of submission-phase-observable status maps, the poll loop
never exits. -/
theorem execute_tasks_dependency_wait_diverges :
    ∀ (tasks : List Task) (deps : List String) (d : String),
      d ∈ deps → tasks.any (fun t => t.id = d) = true →
      ∀ (fuel : Nat) (σs : Nat → (String → Option TaskStatus)),
        (∀ k, SubmissionPhaseView tasks (σs k)) →
        waitForDependencies σs deps fuel = false := by
  intro tasks deps d hd hmem fuel
  induction fuel with
  | zero => intro σs _; rfl
  | succ fuel ih =>
    intro σs hview
    rw [waitForDependencies]
    have h1 : allDepsDone (σs 0) deps = false := by
      obtain ⟨s, hs, hterm⟩ := submission_phase_not_terminal (hview 0) hmem
      cases hall : allDepsDone (σs 0) deps
      · rfl
      · exfalso
        rw [allDepsDone, List.all_eq_true] at hall
        have := hall d hd
        rw [hs] at this
        simp only at this
        rw [hterm] at this
        exact Bool.noConfusion this
    rw [h1]
    exact ih (fun k => σs (k + 1)) (fun k => hview (k + 1))

/-- Witness for C1's divergence theorem on a decomposer-produced two-task
chain (`"open a file then save it"` yields `task_1` depending on `task_0`),
polled against the freshly initialised execution map. -/
theorem execute_tasks_dependency_wait_diverges_witness :
    waitForDependencies (fun _ => initExecutions (parse "open a file then save it"))
      [taskId 0] 5 = false :=
  execute_tasks_dependency_wait_diverges (parse "open a file then save it")
    [taskId 0] (taskId 0) (by simp) (by decide) 5
    (fun _ => initExecutions (parse "open a file then save it"))
    (fun _ => ⟨[], rfl⟩)

/-! ## Claim C4: helper lemmas about valid schedules -/

/-- Invariant tying the schedule bookkeeping to the status map: a worker that
returned had finished, a finished worker had started, an uncollected task is
`RUNNING` exactly when its worker started (else `PENDING`), and a collected
task is never `PENDING`. -/
def WInv (st : String → WState) (σ : String → TaskStatus) : Prop :=
  ∀ id,
    ((st id).finOk = true → (st id).finished = true) ∧
    ((st id).finished = true → (st id).started = true) ∧
    ((st id).collected = false →
      σ id = (if (st id).started then TaskStatus.running else TaskStatus.pending)) ∧
    ((st id).collected = true → σ id ≠ TaskStatus.pending)

theorem winv_init : WInv (fun _ => WState.init) (fun _ => TaskStatus.pending) := by
  intro id
  refine ⟨?_, ?_, ?_, ?_⟩ <;> simp [WState.init]

theorem setW_same (st : String → WState) (id : String) (w : WState) :
    setW st id w id = w := by
  simp [setW]

theorem setW_other {st : String → WState} {id tid : String} {w : WState}
    (h : id ≠ tid) : setW st tid w id = st id := by
  simp [setW, h]

theorem setStatus_same (σ : String → TaskStatus) (id : String) (s : TaskStatus) :
    setStatus σ id s id = s := by
  simp [setStatus]

theorem setStatus_other {σ : String → TaskStatus} {id tid : String} {s : TaskStatus}
    (h : id ≠ tid) : setStatus σ tid s id = σ id := by
  simp [setStatus, h]

theorem winv_step {ids : List String} {maxW : Nat} {st : String → WState}
    {σ : String → TaskStatus} {e : TEvent} {st2 : String → WState}
    (hinv : WInv st σ) (hs : stepOk ids maxW st e = some st2) :
    WInv st2 (applyEvent σ e) := by
  cases e with
  | start tid =>
    rw [stepOk] at hs
    split_ifs at hs with hc
    · injection hs with hseq
      subst hseq
      intro id
      obtain ⟨h1, h2, h3, h4⟩ := hinv id
      by_cases hid : id = tid
      · subst hid
        simp only [setW_same, applyEvent, setStatus_same]
        refine ⟨?_, ?_, ?_, ?_⟩ <;>
          first
            | trivial
            | exact h1
            | exact h2
            | exact fun _ => rfl
            | exact fun _ => hc.1
            | exact fun _ => hc.2.1
            | (intro hcol; rw [h3 hcol])
            | (intro hcol; exact h4 hcol)
            | (intro hcol; exact Bool.noConfusion hcol)
            | (intro _; trivial)
            | (intro _; exact fun hx => TaskStatus.noConfusion hx)
            | simp
      · simp only [setW_other hid, applyEvent, setStatus_other hid]
        exact ⟨h1, h2, h3, h4⟩
  | finishOk tid =>
    rw [stepOk] at hs
    split_ifs at hs with hc
    · injection hs with hseq
      subst hseq
      intro id
      obtain ⟨h1, h2, h3, h4⟩ := hinv id
      by_cases hid : id = tid
      · subst hid
        simp only [setW_same, applyEvent, setStatus_same]
        refine ⟨?_, ?_, ?_, ?_⟩ <;>
          first
            | trivial
            | exact h1
            | exact h2
            | exact fun _ => rfl
            | exact fun _ => hc.1
            | exact fun _ => hc.2.1
            | (intro hcol; rw [h3 hcol])
            | (intro hcol; exact h4 hcol)
            | (intro hcol; exact Bool.noConfusion hcol)
            | (intro _; trivial)
            | (intro _; exact fun hx => TaskStatus.noConfusion hx)
            | simp
      · simp only [setW_other hid, applyEvent]
        exact ⟨h1, h2, h3, h4⟩
  | finishErr tid =>
    rw [stepOk] at hs
    split_ifs at hs with hc
    · injection hs with hseq
      subst hseq
      intro id
      obtain ⟨h1, h2, h3, h4⟩ := hinv id
      by_cases hid : id = tid
      · subst hid
        simp only [setW_same, applyEvent, setStatus_same]
        refine ⟨?_, ?_, ?_, ?_⟩ <;>
          first
            | trivial
            | exact h1
            | exact h2
            | exact fun _ => rfl
            | exact fun _ => hc.1
            | exact fun _ => hc.2.1
            | (intro hcol; rw [h3 hcol])
            | (intro hcol; exact h4 hcol)
            | (intro hcol; exact Bool.noConfusion hcol)
            | (intro _; trivial)
            | (intro _; exact fun hx => TaskStatus.noConfusion hx)
            | simp
      · simp only [setW_other hid, applyEvent]
        exact ⟨h1, h2, h3, h4⟩
  | collectOk tid =>
    rw [stepOk] at hs
    split_ifs at hs with hc
    · injection hs with hseq
      subst hseq
      intro id
      obtain ⟨h1, h2, h3, h4⟩ := hinv id
      by_cases hid : id = tid
      · subst hid
        simp only [setW_same, applyEvent, setStatus_same]
        refine ⟨?_, ?_, ?_, ?_⟩ <;>
          first
            | trivial
            | exact h1
            | exact h2
            | exact fun _ => rfl
            | exact fun _ => hc.1
            | exact fun _ => hc.2.1
            | (intro hcol; rw [h3 hcol])
            | (intro hcol; exact h4 hcol)
            | (intro hcol; exact Bool.noConfusion hcol)
            | (intro _; trivial)
            | (intro _; exact fun hx => TaskStatus.noConfusion hx)
            | simp
      · simp only [setW_other hid, applyEvent, setStatus_other hid]
        exact ⟨h1, h2, h3, h4⟩
  | collectErr tid =>
    rw [stepOk] at hs
    split_ifs at hs with hc
    · injection hs with hseq
      subst hseq
      intro id
      obtain ⟨h1, h2, h3, h4⟩ := hinv id
      by_cases hid : id = tid
      · subst hid
        simp only [setW_same, applyEvent, setStatus_same]
        refine ⟨?_, ?_, ?_, ?_⟩ <;>
          first
            | trivial
            | exact h1
            | exact h2
            | exact fun _ => rfl
            | exact fun _ => hc.1
            | exact fun _ => hc.2.1
            | (intro hcol; rw [h3 hcol])
            | (intro hcol; exact h4 hcol)
            | (intro hcol; exact Bool.noConfusion hcol)
            | (intro _; trivial)
            | (intro _; exact fun hx => TaskStatus.noConfusion hx)
            | simp
      · simp only [setW_other hid, applyEvent, setStatus_other hid]
        exact ⟨h1, h2, h3, h4⟩
  | collectTimeout tid =>
    rw [stepOk] at hs
    split_ifs at hs with hc
    · injection hs with hseq
      subst hseq
      intro id
      obtain ⟨h1, h2, h3, h4⟩ := hinv id
      by_cases hid : id = tid
      · subst hid
        simp only [setW_same, applyEvent, setStatus_same]
        refine ⟨?_, ?_, ?_, ?_⟩ <;>
          first
            | trivial
            | exact h1
            | exact h2
            | exact fun _ => rfl
            | exact fun _ => hc.1
            | exact fun _ => hc.2.1
            | (intro hcol; rw [h3 hcol])
            | (intro hcol; exact h4 hcol)
            | (intro hcol; exact Bool.noConfusion hcol)
            | (intro _; trivial)
            | (intro _; exact fun hx => TaskStatus.noConfusion hx)
            | simp
      · simp only [setW_other hid, applyEvent, setStatus_other hid]
        exact ⟨h1, h2, h3, h4⟩

theorem traceRun_winv {ids : List String} {maxW : Nat} :
    ∀ (tr : List TEvent) (st : String → WState) (σ : String → TaskStatus)
      (st2 : String → WState),
      WInv st σ → traceRun ids maxW st tr = some st2 →
      WInv st2 (statusFrom σ tr) := by
  intro tr
  induction tr with
  | nil =>
    intro st σ st2 hinv hrun
    rw [traceRun] at hrun
    injection hrun with h
    subst h
    exact hinv
  | cons e tr ih =>
    intro st σ st2 hinv hrun
    rw [traceRun] at hrun
    cases hso : stepOk ids maxW st e with
    | none => rw [hso] at hrun; exact Option.noConfusion hrun
    | some st' =>
      rw [hso] at hrun
      exact ih st' (applyEvent σ e) st2 (winv_step hinv hso) hrun

theorem traceRun_append (ids : List String) (maxW : Nat) :
    ∀ (a b : List TEvent) (st : String → WState),
      traceRun ids maxW st (a ++ b) =
        (traceRun ids maxW st a).bind (fun st2 => traceRun ids maxW st2 b) := by
  intro a
  induction a with
  | nil => intro b st; rfl
  | cons e a ih =>
    intro b st
    rw [List.cons_append, traceRun, traceRun]
    cases stepOk ids maxW st e with
    | none => rfl
    | some st2 => exact ih b st2

theorem statusFrom_append :
    ∀ (a b : List TEvent) (σ : String → TaskStatus),
      statusFrom σ (a ++ b) = statusFrom (statusFrom σ a) b := by
  intro a
  induction a with
  | nil => intro b σ; rfl
  | cons e a ih => intro b σ; rw [List.cons_append, statusFrom, statusFrom]; exact ih b _

theorem stepOk_started_mono {ids : List String} {maxW : Nat}
    {st : String → WState} {e : TEvent} {st2 : String → WState} {id : String}
    (hs : stepOk ids maxW st e = some st2) (h : (st id).started = true) :
    (st2 id).started = true := by
  cases e <;>
    (rename_i tid
     rw [stepOk] at hs
     split_ifs at hs with hc
     · injection hs with hseq
       subst hseq
       by_cases hid : id = tid
       · subst hid; simp [setW, h]
       · simpa [setW, hid] using h)

theorem traceRun_started_mono {ids : List String} {maxW : Nat} :
    ∀ (tr : List TEvent) (st st2 : String → WState) (id : String),
      traceRun ids maxW st tr = some st2 → (st id).started = true →
      (st2 id).started = true := by
  intro tr
  induction tr with
  | nil =>
    intro st st2 id hrun h
    rw [traceRun] at hrun
    injection hrun with h2
    subst h2
    exact h
  | cons e tr ih =>
    intro st st2 id hrun h
    rw [traceRun] at hrun
    cases hso : stepOk ids maxW st e with
    | none => rw [hso] at hrun; exact Option.noConfusion hrun
    | some st' =>
      rw [hso] at hrun
      exact ih st' st2 id hrun (stepOk_started_mono hso h)

theorem traceRun_start_mem {ids : List String} {maxW : Nat} :
    ∀ (tr : List TEvent) (st st2 : String → WState) (id : String),
      traceRun ids maxW st tr = some st2 → TEvent.start id ∈ tr →
      (st2 id).started = true := by
  intro tr
  induction tr with
  | nil =>
    intro st st2 id _ hmem
    exact absurd hmem (List.not_mem_nil _)
  | cons e tr ih =>
    intro st st2 id hrun hmem
    rw [traceRun] at hrun
    cases hso : stepOk ids maxW st e with
    | none => rw [hso] at hrun; exact Option.noConfusion hrun
    | some st' =>
      rw [hso] at hrun
      rcases List.mem_cons.mp hmem with he | hmem2
      · subst he
        rw [stepOk] at hso
        split_ifs at hso with hc
        injection hso with hseq
        subst hseq
        exact traceRun_started_mono tr _ st2 id hrun (by simp [setW])
      · exact ih st' st2 id hrun hmem2

theorem nextUncollected_not_collected {ids : List String} {st : String → WState}
    {id : String} (h : nextUncollected ids st = some id) :
    (st id).collected = false := by
  have := List.find?_some h
  simpa using this

theorem stepOk_pending_jump {ids : List String} {maxW : Nat}
    {st : String → WState} {σ : String → TaskStatus} {e : TEvent}
    {st2 : String → WState} {id : String}
    (hinv : WInv st σ) (hs : stepOk ids maxW st e = some st2)
    (hp : σ id = TaskStatus.pending)
    (ht : (applyEvent σ e id).isTerminal = true) :
    applyEvent σ e id = TaskStatus.failed ∧ e = TEvent.collectTimeout id ∧
      (st id).started = false := by
  obtain ⟨h1, h2, h3, h4⟩ := hinv id
  have hcol : (st id).collected = false := by
    cases hcl : (st id).collected
    · rfl
    · exact absurd hp (h4 hcl)
  have hstarted : (st id).started = false := by
    cases hst : (st id).started
    · rfl
    · have := h3 hcol
      rw [hst, if_pos rfl] at this
      rw [hp] at this
      exact absurd this (by simp)
  cases e with
  | start tid =>
    exfalso
    by_cases hid : id = tid
    · subst hid
      simp only [applyEvent, setStatus_same] at ht
      exact Bool.noConfusion ht
    · simp only [applyEvent, setStatus_other hid] at ht
      rw [hp] at ht
      exact Bool.noConfusion ht
  | finishOk tid =>
    exfalso
    simp only [applyEvent] at ht
    rw [hp] at ht
    exact Bool.noConfusion ht
  | finishErr tid =>
    exfalso
    simp only [applyEvent] at ht
    rw [hp] at ht
    exact Bool.noConfusion ht
  | collectOk tid =>
    exfalso
    by_cases hid : id = tid
    · subst hid
      rw [stepOk] at hs
      split_ifs at hs with hc
      have hstart := h2 (h1 hc.2)
      rw [hstarted] at hstart
      exact Bool.noConfusion hstart
    · simp only [applyEvent, setStatus_other hid] at ht
      rw [hp] at ht
      exact Bool.noConfusion ht
  | collectErr tid =>
    exfalso
    by_cases hid : id = tid
    · subst hid
      rw [stepOk] at hs
      split_ifs at hs with hc
      have hstart := h2 hc.2.1
      rw [hstarted] at hstart
      exact Bool.noConfusion hstart
    · simp only [applyEvent, setStatus_other hid] at ht
      rw [hp] at ht
      exact Bool.noConfusion ht
  | collectTimeout tid =>
    by_cases hid : id = tid
    · subst hid
      exact ⟨by simp [applyEvent, setStatus], rfl, hstarted⟩
    · exfalso
      simp only [applyEvent, setStatus_other hid] at ht
      rw [hp] at ht
      exact Bool.noConfusion ht

theorem stepOk_completed_from_running {ids : List String} {maxW : Nat}
    {st : String → WState} {σ : String → TaskStatus} {e : TEvent}
    {st2 : String → WState} {id : String}
    (hinv : WInv st σ) (hs : stepOk ids maxW st e = some st2)
    (hc : applyEvent σ e id = TaskStatus.completed)
    (hne : σ id ≠ TaskStatus.completed) :
    σ id = TaskStatus.running := by
  obtain ⟨h1, h2, h3, h4⟩ := hinv id
  cases e with
  | start tid =>
    exfalso
    by_cases hid : id = tid
    · subst hid
      simp only [applyEvent, setStatus_same] at hc
      exact TaskStatus.noConfusion hc
    · simp only [applyEvent, setStatus_other hid] at hc
      exact hne hc
  | finishOk tid =>
    exfalso
    simp only [applyEvent] at hc
    exact hne hc
  | finishErr tid =>
    exfalso
    simp only [applyEvent] at hc
    exact hne hc
  | collectOk tid =>
    by_cases hid : id = tid
    · subst hid
      rw [stepOk] at hs
      split_ifs at hs with hcond
      have hcol : (st id).collected = false := nextUncollected_not_collected hcond.1
      have hstart : (st id).started = true := h2 (h1 hcond.2)
      have := h3 hcol
      rw [hstart, if_pos rfl] at this
      exact this
    · exfalso
      simp only [applyEvent, setStatus_other hid] at hc
      exact hne hc
  | collectErr tid =>
    exfalso
    by_cases hid : id = tid
    · subst hid
      simp only [applyEvent, setStatus_same] at hc
      exact TaskStatus.noConfusion hc
    · simp only [applyEvent, setStatus_other hid] at hc
      exact hne hc
  | collectTimeout tid =>
    exfalso
    by_cases hid : id = tid
    · subst hid
      simp only [applyEvent, setStatus_same] at hc
      exact TaskStatus.noConfusion hc
    · simp only [applyEvent, setStatus_other hid] at hc
      exact hne hc

theorem traceOk_take {ids : List String} {maxW : Nat} {tr : List TEvent}
    (h : traceOk ids maxW tr = true) (k : Nat) :
    ∃ st2, traceRun ids maxW (fun _ => WState.init) (tr.take k) = some st2 := by
  rw [traceOk] at h
  have hsplit := traceRun_append ids maxW (tr.take k) (tr.drop k) (fun _ => WState.init)
  rw [List.take_append_drop] at hsplit
  cases htr : traceRun ids maxW (fun _ => WState.init) (tr.take k) with
  | none =>
    exfalso
    rw [hsplit, htr] at h
    simp at h
  | some st2 => exact ⟨st2, rfl⟩

/-! ## Claim C4 -/

/-- Task ids of the C4 counterexample schedule: four independent tasks on
the default pool of three workers. -/
def c4Ids : List String := [taskId 0, taskId 1, taskId 2, taskId 3]

/-- A schedule the code can produce: three workers start and hang past the
300-second future timeout; the collection loop then times out on all four
futures in submission order.  `task_3` never started — its callable was
still queued behind the three busy workers — so its status goes straight
from `PENDING` to `FAILED`. -/
def c4Trace : List TEvent :=
  [ TEvent.start (taskId 0), TEvent.start (taskId 1), TEvent.start (taskId 2),
    TEvent.collectTimeout (taskId 0), TEvent.collectTimeout (taskId 1),
    TEvent.collectTimeout (taskId 2), TEvent.collectTimeout (taskId 3) ]

/-- Counterexample to claim C4 as stated: the schedule `c4Trace` is a valid
run of `execute_tasks` (pool bound 3, collection in submission order), yet
the no-direct-jump property fails — `task_3` is set from `pending` directly
to `failed` by the timeout branch of the collection loop, having never been
`running`. -/
theorem task_status_pending_to_failed_jump :
    traceOk c4Ids 3 c4Trace = true ∧ noPendingJump c4Ids c4Trace = false := by
  constructor
  · decide
  · decide

/-- Claim C4 (amended): along every schedule the code can produce, the only
direct `pending → terminal` transition is `pending → failed` performed by a
`future.result` timeout for a task whose worker never started; in
particular a task reaches `completed` only from `running`. -/
theorem task_status_transitions_amended :
    ∀ (ids : List String) (maxW : Nat) (tr : List TEvent) (k : Nat) (id : String),
      traceOk ids maxW tr = true →
      ((statusAt tr k id = TaskStatus.pending ∧
          (statusAt tr (k + 1) id).isTerminal = true) →
        statusAt tr (k + 1) id = TaskStatus.failed ∧
          tr[k]? = some (TEvent.collectTimeout id) ∧
          TEvent.start id ∉ tr.take k) ∧
      ((statusAt tr (k + 1) id = TaskStatus.completed ∧
          statusAt tr k id ≠ TaskStatus.completed) →
        statusAt tr k id = TaskStatus.running) := by
  intro ids maxW tr k id htr
  by_cases hk : k < tr.length
  · obtain ⟨e, hget⟩ : ∃ e, tr[k]? = some e :=
      ⟨tr[k], List.getElem?_eq_getElem hk⟩
    have htake : tr.take (k + 1) = tr.take k ++ [e] := by
      rw [List.take_succ, hget]
      rfl
    obtain ⟨stk, hstk⟩ := traceOk_take htr k
    obtain ⟨stk1, hstk1⟩ := traceOk_take htr (k + 1)
    rw [htake, traceRun_append, hstk] at hstk1
    simp only [Option.some_bind] at hstk1
    have hstep : stepOk ids maxW stk e = some stk1 := by
      cases hso : stepOk ids maxW stk e with
      | none => simp [traceRun, hso] at hstk1
      | some st' => simpa [traceRun, hso] using hstk1
    have hinv : WInv stk (statusFrom (fun _ => TaskStatus.pending) (tr.take k)) :=
      traceRun_winv (tr.take k) _ _ _ winv_init hstk
    have hs1 : ∀ x, statusAt tr (k + 1) x =
        applyEvent (statusFrom (fun _ => TaskStatus.pending) (tr.take k)) e x := by
      intro x
      rw [statusAt, htake, statusFrom_append]
      rfl
    constructor
    · rintro ⟨hp, hterm⟩
      have hp2 : statusFrom (fun _ => TaskStatus.pending) (tr.take k) id =
          TaskStatus.pending := hp
      rw [hs1] at hterm
      obtain ⟨hfail, he, hstarted⟩ := stepOk_pending_jump hinv hstep hp2 hterm
      subst he
      refine ⟨by rw [hs1]; exact hfail, hget, ?_⟩
      intro hmem
      have := traceRun_start_mem (tr.take k) _ stk id hstk hmem
      rw [this] at hstarted
      exact Bool.noConfusion hstarted
    · rintro ⟨hcomp, hne⟩
      rw [hs1] at hcomp
      exact stepOk_completed_from_running hinv hstep hcomp hne
  · have heq : tr.take (k + 1) = tr.take k := by
      rw [List.take_of_length_le (by omega), List.take_of_length_le (by omega)]
    have hsame : statusAt tr (k + 1) id = statusAt tr k id := by
      rw [statusAt, statusAt, heq]
    constructor
    · rintro ⟨hp, hterm⟩
      rw [hsame, hp] at hterm
      exact absurd hterm (by simp [TaskStatus.isTerminal])
    · rintro ⟨hcomp, hne⟩
      rw [hsame] at hcomp
      exact absurd hcomp hne

/-- Witness for the amended C4 at the concrete schedule `c4Trace`: the
pending-to-terminal step of `task_3` is the timeout collection of a task
that never started. -/
theorem task_status_transitions_amended_witness :
    statusAt c4Trace 7 (taskId 3) = TaskStatus.failed ∧
      c4Trace[6]? = some (TEvent.collectTimeout (taskId 3)) ∧
      TEvent.start (taskId 3) ∉ c4Trace.take 6 :=
  (task_status_transitions_amended c4Ids 3 c4Trace 6 (taskId 3) (by decide)).1
    (by constructor <;> decide)

end Dados
